import Mathlib

/-!
Verification development for the contract-verification request adapter of a
blockchain-explorer frontend (file `src/ui/contractVerification/utils.ts`).

The TypeScript source is shallowly embedded:
* JavaScript scalar values that can flow into a request body are modelled by
  `JsValue` (string, number, boolean, `undefined`, or a flat string-to-string
  object as produced by `reduceLibrariesArray`).
* A `FormData` multipart container is modelled as an ordered list of
  key/value entries, where a value is either a string (the result of
  JavaScript string coercion applied by `FormData.set`) or a `File`.
  `FormData.set` replaces the first entry with a matching key and drops the
  other matching entries, otherwise it appends.
* A plain JavaScript object literal body is modelled as an ordered list of
  key/`JsValue` pairs.  This keeps the distinction between a key that is
  present with value `undefined` and a key that is absent.
* The form-data union `FormFields` is modelled as a single structure holding
  the superset of the per-method fields; the source narrows with unchecked
  casts, so each branch simply reads the fields it expects.
-/

/-- A select-box option; the source only ever reads its `value`. -/
structure SelectOption where
  value : String
deriving Repr, DecidableEq

/-- One row of the libraries field array. -/
structure ContractLibrary where
  name : String
  address : String
deriving Repr, DecidableEq

/-- A browser `File`: only its name matters to the adapter; the payload is
kept as an opaque string. -/
structure JsFile where
  name : String
  content : String
deriving Repr, DecidableEq

/-- JavaScript values that appear in a plain request-body object. -/
inductive JsValue where
  | undef : JsValue
  | str : String → JsValue
  | num : Int → JsValue
  | bool : Bool → JsValue
  | obj : List (String × String) → JsValue
deriving Repr, DecidableEq

/-- JavaScript `String(b)` for a boolean. -/
def boolString (b : Bool) : String :=
  if b then "true" else "false"

/-- JavaScript `String(v)` coercion, as applied by `FormData.set` to a
non-file value. -/
def jsString : JsValue → String
  | .undef => "undefined"
  | .str s => s
  | .num n => toString n
  | .bool b => boolString b
  | .obj _ => "[object Object]"

/-- The optional-chain `o?.value` on a possibly-null select option. -/
def optValue : Option SelectOption → JsValue
  | none => .undef
  | some o => .str o.value

/-- One hexadecimal digit, used by the JSON escaper for control characters. -/
def hexDigit (n : Nat) : Char :=
  if n < 10 then Char.ofNat (48 + n) else Char.ofNat (87 + n)

/-- `JSON.stringify` escaping of a single character inside a string literal. -/
def jsonEscapeChar (c : Char) : String :=
  if c = '"' then "\\\""
  else if c = '\\' then "\\\\"
  else if c = '\n' then "\\n"
  else if c = '\r' then "\\r"
  else if c = '\t' then "\\t"
  else if c = Char.ofNat 8 then "\\b"
  else if c = Char.ofNat 12 then "\\f"
  else if c.toNat < 32 then
    "\\u00" ++ String.singleton (hexDigit (c.toNat / 16)) ++ String.singleton (hexDigit (c.toNat % 16))
  else String.singleton c

/-- `JSON.stringify` of a string. -/
def jsonString (s : String) : String :=
  "\"" ++ String.join (s.data.map jsonEscapeChar) ++ "\""

/-- `JSON.stringify` of a flat string-to-string object, in key order. -/
def jsonStringifyObj (fields : List (String × String)) : String :=
  "\x7b" ++ String.intercalate "," (fields.map (fun kv => jsonString kv.1 ++ ":" ++ jsonString kv.2)) ++ "\x7d"

/-- A value stored in a multipart `FormData` entry. -/
inductive FormVal where
  | str : String → FormVal
  | file : JsFile → FormVal
deriving Repr, DecidableEq

/-- The two wire shapes `prepareRequestBody` can return: a plain object
literal, or a multipart `FormData` container. -/
inductive RequestBody where
  | plain : List (String × JsValue) → RequestBody
  | multipart : List (String × FormVal) → RequestBody
deriving Repr, DecidableEq

/-- `FormData.set`: replace the first entry with a matching key (dropping any
further matches), or append a fresh entry. -/
def fdSet : List (String × FormVal) → String → FormVal → List (String × FormVal)
  | [], k, v => [(k, v)]
  | e :: rest, k, v =>
    if e.1 = k then (k, v) :: rest.filter (fun e2 => ¬ (e2.1 = k)) else e :: fdSet rest k v

/-- The superset of the fields of the `FormFields` union.  The source narrows
the union with unchecked casts and reads only the fields of the selected
variant, which this flat structure models directly.  `optimization_runs` is a
string in the flattened-code variant and a number in the multi-part variant,
hence `JsValue`. -/
structure FormFields where
  method : SelectOption
  is_yul : Bool := false
  name : String := ""
  compiler : Option SelectOption := none
  evm_version : Option SelectOption := none
  is_optimization_enabled : Bool := false
  optimization_runs : JsValue := .undef
  code : String := ""
  autodetect_constructor_args : Bool := false
  constructor_args : String := ""
  libraries : Option (List ContractLibrary) := none
  sources : Option (List JsFile) := none
  contract_index : Option SelectOption := none
deriving Repr

/-- `SUPPORTED_VERIFICATION_METHODS` from the source. -/
def SUPPORTED_VERIFICATION_METHODS : List String :=
  [ "flattened-code",
    "standard-input",
    "sourcify",
    "multi-part",
    "vyper-code",
    "vyper-multi-part" ]

/-- `METHOD_LABELS` from the source. -/
def METHOD_LABELS : List (String × String) :=
  [ ("flattened-code", "Solidity (Flattened source code)"),
    ("standard-input", "Solidity (Standard JSON input)"),
    ("sourcify", "Solidity (Sourcify)"),
    ("multi-part", "Solidity (Multi-part files)"),
    ("vyper-code", "Vyper (Contract)"),
    ("vyper-multi-part", "Vyper (Multi-part files)") ]

/-- Values appearing in the `DEFAULT_VALUES` table. -/
inductive DefVal where
  | str : String → DefVal
  | boolean : Bool → DefVal
  | num : Int → DefVal
  | null : DefVal
  | arr : List DefVal → DefVal
  | obj : List (String × DefVal) → DefVal

/-- Looks up a key in an association list, JavaScript-object style
(`undefined` when absent). -/
def jsLookup (l : List (String × α)) (k : String) : Option α :=
  (l.find? (fun e => e.1 == k)).map (·.2)

/-- The `method` field of a `DEFAULT_VALUES` entry. -/
def methodField (tag : String) : DefVal :=
  .obj [("value", .str tag), ("label", .str ((jsLookup METHOD_LABELS tag).getD ""))]

/-- `DEFAULT_VALUES` from the source: for each method tag, the initial form
state, with fields in source order. -/
def DEFAULT_VALUES : List (String × List (String × DefVal)) :=
  [ ("flattened-code",
      [ ("method", methodField "flattened-code"),
        ("is_yul", .boolean false),
        ("name", .str ""),
        ("compiler", .null),
        ("evm_version", .null),
        ("is_optimization_enabled", .boolean true),
        ("optimization_runs", .str "200"),
        ("code", .str ""),
        ("autodetect_constructor_args", .boolean true),
        ("constructor_args", .str ""),
        ("libraries", .arr []) ]),
    ("standard-input",
      [ ("method", methodField "standard-input"),
        ("name", .str ""),
        ("compiler", .null),
        ("sources", .arr []),
        ("autodetect_constructor_args", .boolean true),
        ("constructor_args", .str "") ]),
    ("sourcify",
      [ ("method", methodField "sourcify"),
        ("sources", .arr []) ]),
    ("multi-part",
      [ ("method", methodField "multi-part"),
        ("compiler", .null),
        ("evm_version", .null),
        ("is_optimization_enabled", .boolean true),
        ("optimization_runs", .num 200),
        ("sources", .arr []),
        ("libraries", .arr []) ]),
    ("vyper-code",
      [ ("method", methodField "vyper-code"),
        ("name", .str ""),
        ("compiler", .null),
        ("code", .str ""),
        ("constructor_args", .str "") ]),
    ("vyper-multi-part",
      [ ("method", methodField "vyper-multi-part"),
        ("compiler", .null),
        ("evm_version", .null),
        ("sources", .arr []) ]) ]

/-- `isValidVerificationMethod` from the source.  The argument is optional;
the guard `method && SUPPORTED_VERIFICATION_METHODS.includes(method)` first
tests JavaScript truthiness of the string (the empty string is falsy). -/
def isValidVerificationMethod (method : Option String) : Bool :=
  match method with
  | none => false
  | some s => if s ≠ "" ∧ s ∈ SUPPORTED_VERIFICATION_METHODS then true else false

/-- `Array.prototype.indexOf`, returning -1 when absent. -/
def jsIndexOf (l : List String) (s : String) : Int :=
  match l.indexOf? s with
  | some i => (i : Int)
  | none => -1

/-- `sortVerificationMethods` from the source: compares two method tags by
their index in `SUPPORTED_VERIFICATION_METHODS`. -/
def sortVerificationMethods (methodA methodB : String) : Int :=
  let indexA := jsIndexOf SUPPORTED_VERIFICATION_METHODS methodA
  let indexB := jsIndexOf SUPPORTED_VERIFICATION_METHODS methodB
  if indexA > indexB then 1
  else if indexA < indexB then -1
  else 0

/-- Stable insertion of an element into a list already sorted by the
comparator-induced order (`cmp a b ≤ 0`). -/
def insertCmp (a : String) : List String → List String
  | [] => [a]
  | b :: bs => if sortVerificationMethods a b ≤ 0 then a :: b :: bs else b :: insertCmp a bs

/-- A stable comparison sort driven by `sortVerificationMethods`, modelling
`Array.prototype.sort(sortVerificationMethods)`. -/
def sortWithComparator : List String → List String
  | [] => []
  | a :: as => insertCmp a (sortWithComparator as)

/-- `reduceLibrariesArray` from the source: `undefined` for an empty or
absent list, otherwise the name-to-address object built by assigning each
entry in order (a repeated name keeps its first position but takes the last
address). -/
def recordAssign (r : List (String × String)) (k v : String) : List (String × String) :=
  if r.any (fun e => e.1 = k) then r.map (fun e => if e.1 = k then (k, v) else e)
  else r ++ [(k, v)]

/-- The fold body of `reduceLibrariesArray`. -/
def reduceLibrariesFold (libs : List ContractLibrary) : List (String × String) :=
  libs.foldl (fun r item => recordAssign r item.name item.address) []

/-- `reduceLibrariesArray` from the source. -/
def reduceLibrariesArray : Option (List ContractLibrary) → Option (List (String × String))
  | none => none
  | some libs => if libs.length = 0 then none else some (reduceLibrariesFold libs)

/-- The wire key for the file at position `index`: the template literal
`files[` + index + `]`. -/
def fileKey (index : Nat) : String :=
  "files[" ++ Nat.repr index ++ "]"

/-- The indexed loop body of `addFilesToFormData`. -/
def addFilesAux (body : List (String × FormVal)) (index : Nat) : List JsFile → List (String × FormVal)
  | [] => body
  | f :: rest => addFilesAux (fdSet body (fileKey index) (.file f)) (index + 1) rest

/-- `addFilesToFormData` from the source: a missing list adds nothing
(an empty array is truthy in JavaScript, so only `undefined` short-circuits);
otherwise each file is set under its positional key. -/
def addFilesToFormData (body : List (String × FormVal)) : Option (List JsFile) → List (String × FormVal)
  | none => body
  | some files => addFilesAux body 0 files

/-- `prepareRequestBody` from the source: dispatch on `data.method.value`. -/
def prepareRequestBody (data : FormFields) : RequestBody :=
  if data.method.value = "flattened-code" then
    .plain [
      ("compiler_version", optValue data.compiler),
      ("source_code", .str data.code),
      ("is_optimization_enabled", .bool data.is_optimization_enabled),
      ("is_yul_contract", .bool data.is_yul),
      ("optimization_runs", data.optimization_runs),
      ("contract_name", .str data.name),
      ("libraries", match reduceLibrariesArray data.libraries with
        | none => .undef
        | some m => .obj m),
      ("evm_version", optValue data.evm_version),
      ("autodetect_constructor_args", .bool data.autodetect_constructor_args),
      ("constructor_args", .str data.constructor_args) ]
  else if data.method.value = "standard-input" then
    let body := fdSet [] "compiler_version" (.str (jsString (optValue data.compiler)))
    let body := fdSet body "contract_name" (.str data.name)
    let body := fdSet body "autodetect_constructor_args" (.str (boolString data.autodetect_constructor_args))
    let body := fdSet body "constructor_args" (.str data.constructor_args)
    .multipart (addFilesToFormData body data.sources)
  else if data.method.value = "sourcify" then
    let body := addFilesToFormData [] data.sources
    let body := match data.contract_index with
      | none => body
      | some ci => fdSet body "chosen_contract_index" (.str ci.value)
    .multipart body
  else if data.method.value = "multi-part" then
    let body := fdSet [] "compiler_version" (.str (jsString (optValue data.compiler)))
    let body := fdSet body "evm_version" (.str (jsString (optValue data.evm_version)))
    let body := fdSet body "is_optimization_enabled" (.str (boolString data.is_optimization_enabled))
    let body := if data.is_optimization_enabled then
        fdSet body "optimization_runs" (.str (jsString data.optimization_runs))
      else body
    let body := match reduceLibrariesArray data.libraries with
      | none => body
      | some libs => fdSet body "libraries" (.str (jsonStringifyObj libs))
    .multipart (addFilesToFormData body data.sources)
  else if data.method.value = "vyper-code" then
    .plain [
      ("compiler_version", optValue data.compiler),
      ("source_code", .str data.code),
      ("contract_name", .str data.name),
      ("constructor_args", .str data.constructor_args) ]
  else if data.method.value = "vyper-multi-part" then
    let body := fdSet [] "compiler_version" (.str (jsString (optValue data.compiler)))
    let body := fdSet body "evm_version" (.str (jsString (optValue data.evm_version)))
    .multipart (addFilesToFormData body data.sources)
  else
    .plain []

/-- `API_ERROR_TO_FORM_FIELD` from the source. -/
def API_ERROR_TO_FORM_FIELD : List (String × String) :=
  [ ("contract_source_code", "code"),
    ("files", "sources"),
    ("compiler_version", "compiler"),
    ("constructor_arguments", "constructor_args"),
    ("name", "name") ]

/-- `formatSocketErrors` from the source: one pair per payload entry, in
payload order; the field path is the dictionary lookup (absent keys give
`undefined`, i.e. `none`), the message is the comma-joined message list. -/
def formatSocketErrors (errors : List (String × List String)) : List (Option String × String) :=
  errors.map (fun kv => (jsLookup API_ERROR_TO_FORM_FIELD kv.1, String.intercalate "," kv.2))

/-! ### Helper notions used by the statements -/

/-- Whether an entry list contains a given key. -/
def hasKey (es : List (String × α)) (k : String) : Bool :=
  es.any (fun e => e.1 == k)

/-- Whether a request body (of either shape) contains a given key. -/
def bodyHasKey : RequestBody → String → Bool
  | .plain fields, k => hasKey fields k
  | .multipart entries, k => hasKey entries k

/-- Whether a multipart value is a file. -/
def isFileVal : FormVal → Bool
  | .str _ => false
  | .file _ => true

/-- The file entries of a multipart body, in order. -/
def fileEntries (es : List (String × FormVal)) : List (String × FormVal) :=
  es.filter (fun e => isFileVal e.2)

/-- The expected file entries for a file list starting at position `i`. -/
def filesFrom (i : Nat) : List JsFile → List (String × FormVal)
  | [] => []
  | f :: rest => (fileKey i, .file f) :: filesFrom (i + 1) rest

/-- The address of the last library entry carrying a given name, if any
(specification-side description of last-write-wins). -/
def lastAddrOf : List ContractLibrary → String → Option String
  | [], _ => none
  | item :: rest, n =>
    match lastAddrOf rest n with
    | some a => some a
    | none => if item.name = n then some item.address else none

/-- Specification-side form-field dictionary of the error remapper, written
as the five fixed cases of the claim. -/
def specFieldFor (k : String) : Option String :=
  if k = "contract_source_code" then some "code"
  else if k = "files" then some "sources"
  else if k = "compiler_version" then some "compiler"
  else if k = "constructor_arguments" then some "constructor_args"
  else if k = "name" then some "name"
  else none

/-- All ways to insert an element into a list. -/
def insertions (a : String) : List String → List (List String)
  | [] => [[a]]
  | b :: bs => (a :: b :: bs) :: (insertions a bs).map (b :: ·)

/-- All permutations of a list, by iterated insertion; unlike
`List.permutations` this reduces inside the kernel. -/
def permsOf : List String → List (List String)
  | [] => [[]]
  | a :: as => (permsOf as).flatMap (insertions a)

/-- Decimal digits of a natural number, most significant first. -/
def decDigits (n : Nat) : List Char :=
  if _h : n < 10 then [Nat.digitChar n]
  else decDigits (n / 10) ++ [Nat.digitChar (n % 10)]
decreasing_by exact Nat.div_lt_self (by omega) (by omega)

/-- Reads decimal digits back into a number. -/
def decVal (l : List Char) : Nat :=
  l.foldl (fun a c => a * 10 + (c.toNat - 48)) 0

/-- Entry lists whose keys cannot clash with any file key (their first
character is not the `f` that every `files[...]` key starts with). -/
def noFileKeys (es : List (String × FormVal)) : Bool :=
  es.all (fun e => e.1.data.head? != some 'f')

/-- The canonical ordering of the six methods as the specification lists it. -/
def canonicalMethodOrder : List String :=
  [ "flattened-code", "standard-input", "sourcify", "multi-part", "vyper-code", "vyper-multi-part" ]

/-- Comparator value dictated by fixed positions in `canonicalMethodOrder`. -/
def positionCompare (a b : String) : Int :=
  if canonicalMethodOrder.indexOf a < canonicalMethodOrder.indexOf b then -1
  else if canonicalMethodOrder.indexOf b < canonicalMethodOrder.indexOf a then 1
  else 0

def dUnknownMethod : FormFields := { method := ⟨"unknown-method"⟩ }

/-- claim C1 original statement -/
def claimC1Original : Prop :=
  ∀ d : FormFields,
    (d.method.value = "flattened-code" ∨ d.method.value = "multi-part") →
    (d.libraries = none ∨ d.libraries = some []) →
    bodyHasKey (prepareRequestBody d) "libraries" = false

def dFlatNoLibs : FormFields := { method := ⟨"flattened-code"⟩, libraries := some [] }

def dMultiNoLibs : FormFields := { method := ⟨"multi-part"⟩, libraries := some [] }


def dMultiOptOn : FormFields :=
  { method := ⟨"multi-part"⟩, is_optimization_enabled := true, optimization_runs := .num 200 }

def dMultiOptOff : FormFields :=
  { method := ⟨"multi-part"⟩, is_optimization_enabled := false }

def fileA : JsFile := { name := "A.sol", content := "contract A" }

def fileB : JsFile := { name := "B.sol", content := "contract B" }

def dSourcifyTwo : FormFields := { method := ⟨"sourcify"⟩, sources := some [fileA, fileB] }

def dMultiBare : FormFields := { method := ⟨"multi-part"⟩ }

/-- Is the field one of the two boolean fields claim C8 names? -/
def isOptBoolField (k : String) : Bool :=
  k == "is_optimization_enabled" || k == "autodetect_constructor_args"

/-- One field of a defaults record, checked as claim C8 words it. -/
def defaultFieldOkOriginal (k : String) : DefVal → Bool
  | .boolean b => !(isOptBoolField k) || b
  | .num n => !(k == "optimization_runs") || (n == 200)
  | .arr l => l.isEmpty
  | .str s => s == ""
  | _ => true

/-- Amended check: the optimization-run-count field may default to the
string "200" (as it does in the flattened-code entry). -/
def defaultFieldOkAmended (k : String) : DefVal → Bool
  | .boolean b => !(isOptBoolField k) || b
  | .num n => !(k == "optimization_runs") || (n == 200)
  | .arr l => l.isEmpty
  | .str s => if k == "optimization_runs" then s == "200" else s == ""
  | _ => true

/-- claim C8 original statement -/
def claimC8Original : Prop :=
  ∀ entry ∈ DEFAULT_VALUES, ∀ fv ∈ entry.2, defaultFieldOkOriginal fv.1 fv.2 = true

/-- Keys of a name-to-address record, in order. -/
def recKeys (r : List (String × String)) : List String := r.map Prod.fst

def libsDup : List ContractLibrary :=
  [ { name := "MathLib", address := "0x1111" },
    { name := "SafeLib", address := "0x2222" },
    { name := "MathLib", address := "0x3333" } ]

/-! ### Infrastructure lemmas -/

theorem mem_insertions_of_erase {a : String} {l : List String} (h : a ∈ l) :
    l ∈ insertions a (l.erase a) := by
  induction l with
  | nil => cases h
  | cons b bs ih =>
    by_cases hb : b = a
    · subst hb
      rw [List.erase_cons_head]
      cases bs <;> simp [insertions]
    · have ha : a ∈ bs := by
        cases List.mem_cons.mp h with
        | inl h1 => exact absurd h1.symm hb
        | inr h2 => exact h2
      rw [List.erase_cons_tail (by simpa using hb)]
      simp only [insertions, List.mem_cons, List.mem_map]
      exact Or.inr ⟨bs, ih ha, rfl⟩

theorem mem_permsOf_of_perm : ∀ (c l : List String), l.Perm c → l ∈ permsOf c := by
  intro c
  induction c with
  | nil => intro l h; simpa [permsOf] using h.eq_nil
  | cons a as ih =>
    intro l h
    have ha : a ∈ l := h.symm.subset (List.mem_cons_self a as)
    have herase : (l.erase a).Perm as := (List.cons_perm_iff_perm_erase.mp h.symm).2.symm
    simp only [permsOf, List.mem_flatMap]
    exact ⟨l.erase a, ih _ herase, mem_insertions_of_erase ha⟩

theorem toDigitsCore_eq (fuel n : Nat) (acc : List Char) (h : n < fuel) :
    Nat.toDigitsCore 10 fuel n acc = decDigits n ++ acc := by
  induction fuel generalizing n acc with
  | zero => omega
  | succ f ih =>
    rw [show Nat.toDigitsCore 10 (f + 1) n acc =
        if n / 10 = 0 then Nat.digitChar (n % 10) :: acc
        else Nat.toDigitsCore 10 f (n / 10) (Nat.digitChar (n % 10) :: acc) from rfl]
    by_cases h10 : n / 10 = 0
    · rw [if_pos h10, decDigits]
      have hn : n < 10 := by omega
      rw [dif_pos hn]
      simp [Nat.mod_eq_of_lt hn]
    · rw [if_neg h10, ih (n / 10) _ (by omega)]
      conv_rhs => rw [decDigits]
      rw [dif_neg (by omega)]
      simp

theorem repr_eq_decDigits (n : Nat) : Nat.repr n = (decDigits n).asString := by
  rw [Nat.repr, Nat.toDigits, toDigitsCore_eq _ _ _ (Nat.lt_succ_self n)]
  simp

theorem digitChar_val (d : Nat) (h : d < 10) : (Nat.digitChar d).toNat - 48 = d := by
  interval_cases d <;> decide

theorem decVal_decDigits (n : Nat) : decVal (decDigits n) = n := by
  induction n using Nat.strong_induction_on with
  | _ n ih =>
    rw [decDigits]
    by_cases h : n < 10
    · rw [dif_pos h]
      simp [decVal, digitChar_val n h]
    · rw [dif_neg h]
      have hlt : n / 10 < n := Nat.div_lt_self (by omega) (by omega)
      have hv := ih (n / 10) hlt
      simp only [decVal, List.foldl_append, List.foldl_cons, List.foldl_nil] at hv ⊢
      rw [hv, digitChar_val _ (Nat.mod_lt _ (by omega))]
      omega

theorem natRepr_injective : Function.Injective Nat.repr := by
  intro m n h
  rw [repr_eq_decDigits, repr_eq_decDigits] at h
  have hd : decDigits m = decDigits n := by
    have := congrArg String.data h
    simpa [List.asString] using this
  have := congrArg decVal hd
  rwa [decVal_decDigits, decVal_decDigits] at this

theorem fileKey_data (n : Nat) :
    (fileKey n).data = 'f' :: 'i' :: 'l' :: 'e' :: 's' :: '[' :: ((Nat.repr n).data ++ [']']) := by
  simp [fileKey, String.data_append]

theorem fileKey_injective : Function.Injective fileKey := by
  intro m n h
  have hd := congrArg String.data h
  rw [fileKey_data, fileKey_data] at hd
  simp only [List.cons.injEq, true_and] at hd
  have : (Nat.repr m).data = (Nat.repr n).data := by
    have := congrArg List.dropLast hd
    simpa [List.dropLast_concat] using this
  exact natRepr_injective (by apply String.ext; exact this)

theorem fileKey_ne {k : String} (h : k.data.head? ≠ some 'f') (n : Nat) : fileKey n ≠ k := by
  intro he
  apply h
  rw [← he, fileKey_data]
  rfl

theorem hasKey_append (l1 l2 : List (String × α)) (k : String) :
    hasKey (l1 ++ l2) k = (hasKey l1 k || hasKey l2 k) := by
  simp [hasKey, List.any_append]

theorem fdSet_eq_append {es : List (String × FormVal)} {k : String}
    (h : hasKey es k = false) (v : FormVal) : fdSet es k v = es ++ [(k, v)] := by
  induction es with
  | nil => rfl
  | cons e rest ih =>
    simp only [hasKey, List.any_cons, Bool.or_eq_false_iff] at h
    rw [fdSet, if_neg (by simpa using h.1), ih (by simpa [hasKey] using h.2)]
    rfl

theorem hasKey_filesFrom {k : String} (h : ∀ n, fileKey n ≠ k) :
    ∀ (i : Nat) (fs : List JsFile), hasKey (filesFrom i fs) k = false := by
  intro i fs
  induction fs generalizing i with
  | nil => rfl
  | cons f rest ih =>
    simp only [filesFrom, hasKey, List.any_cons, Bool.or_eq_false_iff]
    exact ⟨by simpa using h i, by simpa [hasKey] using ih (i + 1)⟩

theorem hasKey_fileKey_of_noFileKeys {es : List (String × FormVal)}
    (h : noFileKeys es = true) (n : Nat) : hasKey es (fileKey n) = false := by
  induction es with
  | nil => rfl
  | cons e rest ih =>
    simp only [noFileKeys, List.all_cons, Bool.and_eq_true] at h
    simp only [hasKey, List.any_cons, Bool.or_eq_false_iff]
    refine ⟨?_, by simpa [hasKey] using ih h.2⟩
    have hne : e.1.data.head? ≠ some 'f' := by simpa using h.1
    simpa using fun hEq => fileKey_ne hne n hEq.symm

theorem addFilesAux_eq_append {i : Nat} {fs : List JsFile} :
    ∀ {body : List (String × FormVal)},
      (∀ n, i ≤ n → hasKey body (fileKey n) = false) →
      addFilesAux body i fs = body ++ filesFrom i fs := by
  induction fs generalizing i with
  | nil => intro body _; simp [addFilesAux, filesFrom]
  | cons f rest ih =>
    intro body h
    rw [addFilesAux, fdSet_eq_append (h i le_rfl)]
    rw [ih (fun n hn => ?_)]
    · simp [filesFrom]
    · rw [hasKey_append, h n (by omega), Bool.false_or]
      simp only [hasKey, List.any_cons, List.any_nil, Bool.or_false]
      simpa using fun hEq => (by omega : ¬ i = n) (fileKey_injective hEq)

theorem addFilesToFormData_eq {body : List (String × FormVal)}
    (h : noFileKeys body = true) (src : Option (List JsFile)) :
    addFilesToFormData body src = body ++ filesFrom 0 (src.getD []) := by
  cases src with
  | none => simp [addFilesToFormData, filesFrom]
  | some fs =>
    exact addFilesAux_eq_append (fun n _ => hasKey_fileKey_of_noFileKeys h n)

theorem fileEntries_append (l1 l2 : List (String × FormVal)) :
    fileEntries (l1 ++ l2) = fileEntries l1 ++ fileEntries l2 := by
  simp [fileEntries, List.filter_append]

theorem fileEntries_filesFrom (i : Nat) (fs : List JsFile) :
    fileEntries (filesFrom i fs) = filesFrom i fs := by
  induction fs generalizing i with
  | nil => rfl
  | cons f rest ih => simp [filesFrom, fileEntries, isFileVal] at ih ⊢; exact ih (i + 1)

theorem hasKey_append_filesFrom {k : String} (h : k.data.head? ≠ some 'f')
    (body : List (String × FormVal)) (i : Nat) (fs : List JsFile) :
    hasKey (body ++ filesFrom i fs) k = hasKey body k := by
  rw [hasKey_append, hasKey_filesFrom (fileKey_ne h), Bool.or_false]

set_option maxRecDepth 100000 in
theorem sortWithComparator_of_mem_permsOf :
    ∀ l ∈ permsOf SUPPORTED_VERIFICATION_METHODS,
      sortWithComparator l = SUPPORTED_VERIFICATION_METHODS := by decide

theorem supported_ne_empty : ∀ s ∈ SUPPORTED_VERIFICATION_METHODS, s ≠ "" := by decide

theorem jsLookup_apiError (k : String) :
    jsLookup API_ERROR_TO_FORM_FIELD k = specFieldFor k := by
  by_cases h1 : k = "contract_source_code"
  · subst h1; rfl
  by_cases h2 : k = "files"
  · subst h2; rfl
  by_cases h3 : k = "compiler_version"
  · subst h3; rfl
  by_cases h4 : k = "constructor_arguments"
  · subst h4; rfl
  by_cases h5 : k = "name"
  · subst h5; rfl
  have b1 : ("contract_source_code" == k) = false := beq_eq_false_iff_ne.mpr (Ne.symm h1)
  have b2 : ("files" == k) = false := beq_eq_false_iff_ne.mpr (Ne.symm h2)
  have b3 : ("compiler_version" == k) = false := beq_eq_false_iff_ne.mpr (Ne.symm h3)
  have b4 : ("constructor_arguments" == k) = false := beq_eq_false_iff_ne.mpr (Ne.symm h4)
  have b5 : ("name" == k) = false := beq_eq_false_iff_ne.mpr (Ne.symm h5)
  simp [jsLookup, API_ERROR_TO_FORM_FIELD, specFieldFor, List.find?,
    b1, b2, b3, b4, b5, h1, h2, h3, h4, h5]

theorem recKeys_recordAssign (r : List (String × String)) (k v : String) :
    recKeys (recordAssign r k v) = if k ∈ recKeys r then recKeys r else recKeys r ++ [k] := by
  unfold recordAssign
  have hiff : (r.any fun e => decide (e.1 = k)) = true ↔ k ∈ recKeys r := by
    rw [List.any_eq_true]
    simp only [decide_eq_true_eq, recKeys, List.mem_map]
  by_cases h : k ∈ recKeys r
  · rw [if_pos (hiff.mpr h), if_pos h, recKeys, List.map_map]
    apply List.map_congr_left
    intro e _
    by_cases hek : e.1 = k
    · simpa [Function.comp, if_pos hek] using hek.symm
    · simp [Function.comp, if_neg hek]
  · rw [if_neg (fun hc => h (hiff.mp hc)), if_neg h, recKeys, List.map_append]
    rfl

theorem mem_recordAssign {r : List (String × String)} {k v : String} {p : String × String}
    (h : p ∈ recordAssign r k v) : p = (k, v) ∨ (p ∈ r ∧ p.1 ≠ k) := by
  unfold recordAssign at h
  by_cases ha : (r.any fun e => decide (e.1 = k)) = true
  · rw [if_pos ha] at h
    obtain ⟨e, he, hg⟩ := List.mem_map.mp h
    by_cases hek : e.1 = k
    · left
      rw [if_pos hek] at hg
      exact hg.symm
    · right
      rw [if_neg hek] at hg
      exact hg ▸ ⟨he, hek⟩
  · rw [if_neg ha] at h
    rcases List.mem_append.mp h with hr | hs
    · right
      refine ⟨hr, fun hpk => ha ?_⟩
      simp only [List.any_eq_true, decide_eq_true_eq]
      exact ⟨p, hr, hpk⟩
    · left
      simpa using hs

theorem mem_recKeys_fold {libs : List ContractLibrary} :
    ∀ (acc : List (String × String)) (n : String),
      n ∈ recKeys (libs.foldl (fun r item => recordAssign r item.name item.address) acc) ↔
        n ∈ recKeys acc ∨ n ∈ libs.map ContractLibrary.name := by
  induction libs with
  | nil => intro acc n; simp
  | cons item rest ih =>
    intro acc n
    rw [List.foldl_cons, ih, recKeys_recordAssign]
    by_cases hk : item.name ∈ recKeys acc
    · rw [if_pos hk]
      simp only [List.map_cons, List.mem_cons]
      constructor
      · rintro (h | h)
        · exact Or.inl h
        · exact Or.inr (Or.inr h)
      · rintro (h | h | h)
        · exact Or.inl h
        · exact Or.inl (h ▸ hk)
        · exact Or.inr h
    · rw [if_neg hk]
      simp only [List.map_cons, List.mem_cons, List.mem_append, List.mem_singleton]
      tauto

theorem nodup_recKeys_fold {libs : List ContractLibrary} :
    ∀ {acc : List (String × String)}, (recKeys acc).Nodup →
      (recKeys (libs.foldl (fun r item => recordAssign r item.name item.address) acc)).Nodup := by
  induction libs with
  | nil => intro acc h; simpa using h
  | cons item rest ih =>
    intro acc h
    rw [List.foldl_cons]
    apply ih
    rw [recKeys_recordAssign]
    by_cases hk : item.name ∈ recKeys acc
    · rw [if_pos hk]
      exact h
    · rw [if_neg hk]
      simp [List.nodup_append, h, hk]

theorem lastAddrOf_eq_none {libs : List ContractLibrary} {n : String}
    (h : n ∉ libs.map ContractLibrary.name) : lastAddrOf libs n = none := by
  induction libs with
  | nil => rfl
  | cons item rest ih =>
    simp only [List.map_cons, List.mem_cons, not_or] at h
    rw [lastAddrOf, ih h.2]
    dsimp only
    rw [if_neg (fun he => h.1 he.symm)]

theorem mem_fold_lastAddr {libs : List ContractLibrary} :
    ∀ {acc : List (String × String)} {p : String × String},
      p ∈ libs.foldl (fun r item => recordAssign r item.name item.address) acc →
      (p.1 ∈ libs.map ContractLibrary.name ∧ lastAddrOf libs p.1 = some p.2) ∨
      (p.1 ∉ libs.map ContractLibrary.name ∧ p ∈ acc) := by
  induction libs with
  | nil =>
    intro acc p h
    exact Or.inr ⟨by simp, by simpa using h⟩
  | cons item rest ih =>
    intro acc p h
    rw [List.foldl_cons] at h
    rcases ih h with ⟨hmem, hlast⟩ | ⟨hnmem, hacc⟩
    · left
      refine ⟨by simp [hmem], ?_⟩
      rw [lastAddrOf, hlast]
    · rcases mem_recordAssign hacc with hp | ⟨hin, hne⟩
      · left
        subst hp
        refine ⟨by simp, ?_⟩
        rw [lastAddrOf, lastAddrOf_eq_none hnmem]
        dsimp only
        rw [if_pos rfl]
      · right
        refine ⟨?_, hin⟩
        simp only [List.map_cons, List.mem_cons, not_or]
        exact ⟨hne, hnmem⟩

/-- Claim C1 counterexample: on the flattened-code branch with an empty
libraries list, the returned plain body still contains the `libraries` key,
bound to the `undefined` value, so the key is not entirely absent. -/
theorem C1_counterexample :
    dFlatNoLibs.method.value = "flattened-code" ∧ dFlatNoLibs.libraries = some [] ∧
    bodyHasKey (prepareRequestBody dFlatNoLibs) "libraries" = true ∧ ¬ claimC1Original := by
  refine ⟨rfl, rfl, rfl, fun h => ?_⟩
  have hc := h dFlatNoLibs (Or.inl rfl) (Or.inr rfl)
  exact absurd hc (by decide)

/-- Claim C1 (amended): for an empty or absent libraries list, the
multi-part body omits the `libraries` key entirely, while the flattened-code
body contains the key with the `undefined` value (never an empty structure). -/
theorem C1_theorem (d : FormFields) (hlib : d.libraries = none ∨ d.libraries = some []) :
    (d.method.value = "multi-part" → bodyHasKey (prepareRequestBody d) "libraries" = false) ∧
    (d.method.value = "flattened-code" →
      ∃ fields, prepareRequestBody d = .plain fields ∧ ("libraries", JsValue.undef) ∈ fields) := by
  have hred : reduceLibrariesArray d.libraries = none := by
    rcases hlib with h | h <;> rw [h] <;> rfl
  constructor
  · intro hm
    simp only [prepareRequestBody, hm, String.reduceEq, reduceIte, hred]
    cases hb : d.is_optimization_enabled <;>
      simp only [hb, Bool.false_eq_true, reduceIte, fdSet, String.reduceEq, bodyHasKey] <;>
        rw [addFilesToFormData_eq (by rfl), hasKey_append_filesFrom (by decide)] <;> rfl
  · intro hm
    simp only [prepareRequestBody, hm, String.reduceEq, reduceIte, hred]
    exact ⟨_, rfl, by simp⟩

/-- Claim C1 witness at a concrete multi-part input with an empty list. -/
theorem C1_witness : bodyHasKey (prepareRequestBody dMultiNoLibs) "libraries" = false :=
  (C1_theorem dMultiNoLibs (Or.inr rfl)).1 rfl

/-- Claim C2: the multi-part body contains the `optimization_runs` key
exactly when `is_optimization_enabled` is true, and omits it when false. -/
theorem C2_theorem (d : FormFields) (hm : d.method.value = "multi-part") :
    bodyHasKey (prepareRequestBody d) "optimization_runs" = d.is_optimization_enabled := by
  simp only [prepareRequestBody, hm, String.reduceEq, reduceIte]
  cases hb : d.is_optimization_enabled <;>
    cases hl : reduceLibrariesArray d.libraries <;>
      simp only [hb, hl, Bool.false_eq_true, reduceIte, fdSet, String.reduceEq, bodyHasKey] <;>
        rw [addFilesToFormData_eq (by rfl), hasKey_append_filesFrom (by decide)] <;> rfl


/-- Claim C2 witness at concrete multi-part inputs, one per flag value. -/
theorem C2_witness :
    bodyHasKey (prepareRequestBody dMultiOptOn) "optimization_runs" = true ∧
    bodyHasKey (prepareRequestBody dMultiOptOff) "optimization_runs" = false :=
  ⟨C2_theorem dMultiOptOn rfl, C2_theorem dMultiOptOff rfl⟩

/-- Claim C3: sorting any permutation of the six method tags with the
comparator yields exactly the canonical order, and on any two of the six
tags the comparator returns -1, 0 or 1 according to their fixed positions
in that canonical list. -/
theorem C3_theorem :
    (∀ l : List String, l.Perm canonicalMethodOrder →
        sortWithComparator l = canonicalMethodOrder) ∧
    (∀ a ∈ SUPPORTED_VERIFICATION_METHODS, ∀ b ∈ SUPPORTED_VERIFICATION_METHODS,
        sortVerificationMethods a b = positionCompare a b) := by
  constructor
  · intro l hp
    exact sortWithComparator_of_mem_permsOf l (mem_permsOf_of_perm _ _ hp)
  · decide

/-- Claim C3 witness on a concrete permutation and a concrete pair. -/
theorem C3_witness :
    sortWithComparator
        ["vyper-multi-part", "multi-part", "sourcify", "flattened-code", "vyper-code", "standard-input"] =
      canonicalMethodOrder ∧
    sortVerificationMethods "sourcify" "flattened-code" = 1 := by
  refine ⟨C3_theorem.1 _ (by decide), ?_⟩
  exact C3_theorem.2 "sourcify" (by decide) "flattened-code" (by decide)

/-- Claim C4: for every file-bearing method the multipart body's file
entries are exactly the source files, in order, keyed files[0] .. files[N-1],
with the file at index i under files[i]; an empty or absent source list
yields zero file entries. -/
theorem C4_theorem (d : FormFields)
    (hm : d.method.value = "standard-input" ∨ d.method.value = "sourcify" ∨
      d.method.value = "multi-part" ∨ d.method.value = "vyper-multi-part") :
    ∃ entries, prepareRequestBody d = .multipart entries ∧
      fileEntries entries = filesFrom 0 (d.sources.getD []) := by
  rcases hm with hm | hm | hm | hm
  · simp only [prepareRequestBody, hm, String.reduceEq, reduceIte, fdSet]
    rw [addFilesToFormData_eq (by rfl)]
    exact ⟨_, rfl, (by rw [fileEntries_append, fileEntries_filesFrom]; simp [fileEntries, isFileVal, List.filter])⟩
  · simp only [prepareRequestBody, hm, String.reduceEq, reduceIte]
    cases hci : d.contract_index with
    | none =>
      dsimp only
      rw [addFilesToFormData_eq (by rfl), List.nil_append]
      exact ⟨_, rfl, fileEntries_filesFrom 0 _⟩
    | some ci =>
      dsimp only
      rw [addFilesToFormData_eq (by rfl), List.nil_append,
        fdSet_eq_append (hasKey_filesFrom (fileKey_ne (by decide)) 0 _)]
      exact ⟨_, rfl, (by rw [fileEntries_append, fileEntries_filesFrom]; simp [fileEntries, isFileVal, List.filter])⟩
  · simp only [prepareRequestBody, hm, String.reduceEq, reduceIte]
    cases hb : d.is_optimization_enabled <;>
      cases hl : reduceLibrariesArray d.libraries <;>
        simp only [hb, hl, Bool.false_eq_true, reduceIte, fdSet, String.reduceEq] <;>
          rw [addFilesToFormData_eq (by rfl)] <;>
            exact ⟨_, rfl, (by rw [fileEntries_append, fileEntries_filesFrom]; simp [fileEntries, isFileVal, List.filter])⟩
  · simp only [prepareRequestBody, hm, String.reduceEq, reduceIte, fdSet]
    rw [addFilesToFormData_eq (by rfl)]
    exact ⟨_, rfl, (by rw [fileEntries_append, fileEntries_filesFrom]; simp [fileEntries, isFileVal, List.filter])⟩

/-- Claim C4 witness at a concrete sourcify input with two files. -/
theorem C4_witness :
    ∃ entries, prepareRequestBody dSourcifyTwo = .multipart entries ∧
      fileEntries entries = filesFrom 0 (dSourcifyTwo.sources.getD []) :=
  C4_theorem dSourcifyTwo (Or.inr (Or.inl rfl))

/-- Claim C5: formatSocketErrors returns one pair per payload entry, in
payload order; the field path is the entry's key looked up in the fixed
five-entry dictionary (an unknown key yields an undefined field path, not a
failure) and the message is the comma-joined message list. -/
theorem C5_theorem (errors : List (String × List String)) :
    formatSocketErrors errors =
      errors.map (fun kv => (specFieldFor kv.1, String.intercalate "," kv.2)) := by
  unfold formatSocketErrors
  exact List.map_congr_left (fun kv _ => by rw [jsLookup_apiError])

/-- Claim C6: for any input whose method tag is not one of the six
recognized tags, prepareRequestBody returns the empty plain mapping; the
fallback is silent (the embedding is a total function, nothing is thrown). -/
theorem C6_theorem (d : FormFields) (h : d.method.value ∉ SUPPORTED_VERIFICATION_METHODS) :
    prepareRequestBody d = .plain [] := by
  simp only [SUPPORTED_VERIFICATION_METHODS, List.mem_cons, List.not_mem_nil, or_false,
    not_or] at h
  obtain ⟨h1, h2, h3, h4, h5, h6⟩ := h
  simp only [prepareRequestBody, if_neg h1, if_neg h2, if_neg h3, if_neg h4, if_neg h5, if_neg h6]

/-- Claim C6 witness at a concrete unknown-method input. -/
theorem C6_witness : prepareRequestBody dUnknownMethod = .plain [] :=
  C6_theorem dUnknownMethod (by decide)

/-- Claim C7: isValidVerificationMethod returns true iff its argument is a
string equal to one of the six method tags; in particular it is true on
flattened-code and false on unknown-method and on an absent argument. -/
theorem C7_theorem :
    (∀ m : Option String,
        isValidVerificationMethod m = true ↔
          ∃ s, m = some s ∧ s ∈ SUPPORTED_VERIFICATION_METHODS) ∧
    isValidVerificationMethod (some "flattened-code") = true ∧
    isValidVerificationMethod (some "unknown-method") = false ∧
    isValidVerificationMethod none = false := by
  refine ⟨?_, by decide, by decide, rfl⟩
  intro m
  cases m with
  | none => simp [isValidVerificationMethod]
  | some s =>
    rw [isValidVerificationMethod]
    by_cases hmem : s ∈ SUPPORTED_VERIFICATION_METHODS
    · rw [if_pos ⟨supported_ne_empty s hmem, hmem⟩]
      simp [hmem]
    · rw [if_neg (fun hc => hmem hc.2)]
      simp [hmem]

/-- Claim C8 counterexample: the flattened-code entry's
optimization_runs field defaults to the string "200", so the claim's
requirement that every string field default to the empty string fails. -/
theorem C8_counterexample :
    (∃ r, jsLookup DEFAULT_VALUES "flattened-code" = some r ∧
      jsLookup r "optimization_runs" = some (DefVal.str "200")) ∧
    defaultFieldOkOriginal "optimization_runs" (DefVal.str "200") = false ∧
    ¬ claimC8Original := by
  refine ⟨⟨_, rfl, rfl⟩, rfl, fun h => ?_⟩
  have hb : (DEFAULT_VALUES.all fun p => p.2.all fun fv => defaultFieldOkOriginal fv.1 fv.2)
      = true := by
    rw [List.all_eq_true]
    intro p hp
    rw [List.all_eq_true]
    intro fv hfv
    exact h p hp fv hfv
  exact absurd hb (by decide)

/-- Claim C8 (amended): the table covers exactly the six tags; the two
claim-named boolean fields default to true, the optimization-run-count
field defaults to 200 (the string "200" in flattened-code, the number 200
in multi-part), collection fields default empty, every other string field
defaults to the empty string, and each entry carries its method descriptor. -/
theorem C8_theorem :
    DEFAULT_VALUES.map Prod.fst = SUPPORTED_VERIFICATION_METHODS ∧
    (DEFAULT_VALUES.all fun p => p.2.all fun fv => defaultFieldOkAmended fv.1 fv.2) = true ∧
    DEFAULT_VALUES.map (fun p => jsLookup p.2 "method") =
      SUPPORTED_VERIFICATION_METHODS.map (fun t => some (methodField t)) :=
  ⟨rfl, by decide, rfl⟩

/-- Claim C9: duplicated library names collapse to a single entry whose
address is the one of the last duplicate in list order, distinctly named
entries are all preserved, and this mapping is exactly what the
flattened-code body and the multi-part body carry. -/
theorem C9_theorem (libs : List ContractLibrary) (hne : libs ≠ []) :
    ∃ m, reduceLibrariesArray (some libs) = some m ∧
      (recKeys m).Nodup ∧
      (∀ n, n ∈ recKeys m ↔ n ∈ libs.map ContractLibrary.name) ∧
      (∀ p ∈ m, lastAddrOf libs p.1 = some p.2) ∧
      (∀ d : FormFields, d.method.value = "flattened-code" → d.libraries = some libs →
        ∃ fields, prepareRequestBody d = .plain fields ∧ ("libraries", JsValue.obj m) ∈ fields) ∧
      (∀ d : FormFields, d.method.value = "multi-part" → d.libraries = some libs →
        ∃ es, prepareRequestBody d = .multipart es ∧
          ("libraries", FormVal.str (jsonStringifyObj m)) ∈ es) := by
  have hred : reduceLibrariesArray (some libs) = some (reduceLibrariesFold libs) := by
    rw [reduceLibrariesArray, if_neg (by simpa using hne)]
  refine ⟨reduceLibrariesFold libs, hred, ?_, ?_, ?_, ?_, ?_⟩
  · exact nodup_recKeys_fold (by simp [recKeys])
  · intro n
    rw [reduceLibrariesFold, mem_recKeys_fold]
    simp [recKeys]
  · intro p hp
    rcases mem_fold_lastAddr hp with ⟨_, h⟩ | ⟨_, habs⟩
    · exact h
    · simp at habs
  · intro d hm hlib
    simp only [prepareRequestBody, hm, String.reduceEq, reduceIte, hlib, hred]
    exact ⟨_, rfl, by simp⟩
  · intro d hm hlib
    simp only [prepareRequestBody, hm, String.reduceEq, reduceIte, hlib, hred]
    cases hb : d.is_optimization_enabled <;>
      simp only [hb, Bool.false_eq_true, reduceIte, fdSet, String.reduceEq] <;>
        rw [addFilesToFormData_eq (by rfl)] <;>
          simp [List.mem_append]

/-- Claim C9 witness on a concrete list with a duplicated name. -/
theorem C9_witness :
    ∃ m, reduceLibrariesArray (some libsDup) = some m ∧
      (recKeys m).Nodup ∧
      (∀ n, n ∈ recKeys m ↔ n ∈ libsDup.map ContractLibrary.name) ∧
      (∀ p ∈ m, lastAddrOf libsDup p.1 = some p.2) ∧
      (∀ d : FormFields, d.method.value = "flattened-code" → d.libraries = some libsDup →
        ∃ fields, prepareRequestBody d = .plain fields ∧ ("libraries", JsValue.obj m) ∈ fields) ∧
      (∀ d : FormFields, d.method.value = "multi-part" → d.libraries = some libsDup →
        ∃ es, prepareRequestBody d = .multipart es ∧
          ("libraries", FormVal.str (jsonStringifyObj m)) ∈ es) :=
  C9_theorem libsDup (by decide)
/-- Claim C10: the standard-input, multi-part and vyper-multi-part bodies
always set compiler_version (and evm_version where applicable); with a null
form field the stored value is the string coercion "undefined", the key is
not omitted. -/
theorem C10_theorem (d : FormFields) :
    ((d.method.value = "standard-input" ∨ d.method.value = "multi-part" ∨
        d.method.value = "vyper-multi-part") →
      ∃ es, prepareRequestBody d = .multipart es ∧ hasKey es "compiler_version" = true ∧
        (d.compiler = none → ("compiler_version", FormVal.str "undefined") ∈ es)) ∧
    ((d.method.value = "multi-part" ∨ d.method.value = "vyper-multi-part") →
      ∃ es, prepareRequestBody d = .multipart es ∧ hasKey es "evm_version" = true ∧
        (d.evm_version = none → ("evm_version", FormVal.str "undefined") ∈ es)) := by
  constructor
  · rintro (hm | hm | hm)
    · simp only [prepareRequestBody, hm, String.reduceEq, reduceIte, fdSet]
      rw [addFilesToFormData_eq (by rfl)]
      refine ⟨_, rfl, (by rw [hasKey_append_filesFrom (by decide)]; rfl), fun hc => ?_⟩
      rw [hc]
      simp [optValue, jsString, List.mem_append]
    · simp only [prepareRequestBody, hm, String.reduceEq, reduceIte]
      cases hb : d.is_optimization_enabled <;>
        cases hl : reduceLibrariesArray d.libraries <;>
          simp only [hb, hl, Bool.false_eq_true, reduceIte, fdSet, String.reduceEq] <;>
            rw [addFilesToFormData_eq (by rfl)] <;>
              exact ⟨_, rfl, (by rw [hasKey_append_filesFrom (by decide)]; rfl),
                fun hc => (by rw [hc]; simp [optValue, jsString, List.mem_append])⟩
    · simp only [prepareRequestBody, hm, String.reduceEq, reduceIte, fdSet]
      rw [addFilesToFormData_eq (by rfl)]
      refine ⟨_, rfl, (by rw [hasKey_append_filesFrom (by decide)]; rfl), fun hc => ?_⟩
      rw [hc]
      simp [optValue, jsString, List.mem_append]
  · rintro (hm | hm)
    · simp only [prepareRequestBody, hm, String.reduceEq, reduceIte]
      cases hb : d.is_optimization_enabled <;>
        cases hl : reduceLibrariesArray d.libraries <;>
          simp only [hb, hl, Bool.false_eq_true, reduceIte, fdSet, String.reduceEq] <;>
            rw [addFilesToFormData_eq (by rfl)] <;>
              exact ⟨_, rfl, (by rw [hasKey_append_filesFrom (by decide)]; rfl),
                fun hc => (by rw [hc]; simp [optValue, jsString, List.mem_append])⟩
    · simp only [prepareRequestBody, hm, String.reduceEq, reduceIte, fdSet]
      rw [addFilesToFormData_eq (by rfl)]
      refine ⟨_, rfl, (by rw [hasKey_append_filesFrom (by decide)]; rfl), fun hc => ?_⟩
      rw [hc]
      simp [optValue, jsString, List.mem_append]

/-- Claim C10 witness at a concrete multi-part input with null options. -/
theorem C10_witness :
    ∃ es, prepareRequestBody dMultiBare = .multipart es ∧ hasKey es "compiler_version" = true ∧
      (dMultiBare.compiler = none → ("compiler_version", FormVal.str "undefined") ∈ es) :=
  (C10_theorem dMultiBare).1 (Or.inr (Or.inl rfl))

